import Mathlib

/-!
Verification development for the Yakoo spaced-repetition scheduling core.

The development shallowly embeds the scheduling engine of the repository:

* the FSRS v4.5 memory model and card scheduler (`src/utils/fsrs.ts`,
  object `fsrs` with helpers `initStability`, `initDifficulty`,
  `nextDifficulty`, `nextRecallStability`, `nextForgetStability`,
  `nextInterval`);
* the due-classifier predicate (`src/utils/srs.ts`, `isCardDue`);
* the review-queue assembly and session progression
  (`src/pages/Review.tsx`, `loadQueue` and `handleRate`).

JavaScript `number` arithmetic is modelled over `ℝ` (exact real
arithmetic); timestamps are modelled as real numbers measured in days for
the scheduler (the source stores ISO strings and millisecond epochs, and
converts with the constant factor 24·60·60·1000, which is a unit change
only), and as integer epoch values for the queue layer.  `Math.round` is
round-half-up (`⌊x + 1/2⌋`), which is exactly JavaScript's behaviour, and
`toFixed(2)`-then-`parseFloat` is rounding to an exact multiple of 1/100.
-/

namespace Yakoo

/-- Card states, from `src/types` (`srsState` field):
`'new' | 'learning' | 'review' | 'relearning'`. -/
inductive SrsState where
  | new
  | learning
  | review
  | relearning
deriving DecidableEq, Repr

/-- `ReviewRating`, from `src/types`: `'again' | 'hard' | 'good' | 'easy'`. -/
inductive Rating where
  | again
  | hard
  | good
  | easy
deriving DecidableEq, Repr

/-- The grade switch at the start of `fsrs.review`:
again ↦ 1, hard ↦ 2, good ↦ 3, easy ↦ 4. -/
def gradeOf : Rating → ℕ
  | Rating.again => 1
  | Rating.hard => 2
  | Rating.good => 3
  | Rating.easy => 4

noncomputable section

/-- `P.request_retention` from `fsrs.ts` (90% retention target). -/
def request_retention : ℝ := 0.9

/-- `P.maximum_interval` from `fsrs.ts`. -/
def maximum_interval : ℝ := 36500

/-- The FSRS v4.5 default weight vector `P.w` from `fsrs.ts`.
Indices 0–3: initial stability for again/hard/good/easy; 4–7: difficulty
factors; 8–10: stability factors; 11–14: retrievability factors;
15–16: hard penalty and easy bonus.  Out-of-range indices are never read
by the source. -/
def w : ℕ → ℝ
  | 0 => 0.4
  | 1 => 0.6
  | 2 => 2.4
  | 3 => 5.8
  | 4 => 4.93
  | 5 => 0.94
  | 6 => 0.86
  | 7 => 0.01
  | 8 => 1.49
  | 9 => 0.14
  | 10 => 0.94
  | 11 => 2.18
  | 12 => 0.05
  | 13 => 0.34
  | 14 => 1.26
  | 15 => 0.29
  | 16 => 2.61
  | _ => 0

/-- The forgetting curve computed in `fsrs.review`:
`Math.pow(1 + elapsedDays / (9 * S), -1)`. -/
def retrievability (S elapsed : ℝ) : ℝ := (1 + elapsed / (9 * S))⁻¹

/-- `initStability(grade) = Math.max(0.1, P.w[grade - 1])`. -/
def initStability (grade : ℕ) : ℝ := max 0.1 (w (grade - 1))

/-- `initDifficulty(grade) = Math.min(10, Math.max(1, P.w[4] - (grade - 3) * P.w[5]))`. -/
def initDifficulty (grade : ℕ) : ℝ := min 10 (max 1 (w 4 - ((grade : ℝ) - 3) * w 5))

/-- `nextDifficulty(D, grade)`:
`new_d = P.w[7] * initDifficulty(4) + (1 - P.w[7]) * (D - P.w[6] * (grade - 3))`,
clamped to `[1, 10]`. -/
def nextDifficulty (D : ℝ) (grade : ℕ) : ℝ :=
  min 10 (max 1 (w 7 * initDifficulty 4 + (1 - w 7) * (D - w 6 * ((grade : ℝ) - 3))))

/-- `nextRecallStability(D, S, R, grade)` from `fsrs.ts`:
`newS = S * (1 + exp(w[8]) * (11 - D) * S^(-w[9]) * (exp(w[10]*(1-R)) - 1)
              * hardPenalty * easyBonus)`
with `hardPenalty = w[15]` iff `grade = 2` and `easyBonus = w[16]` iff
`grade = 4`, returning `Math.min(P.maximum_interval, newS)`. -/
def nextRecallStability (D S R : ℝ) (grade : ℕ) : ℝ :=
  min maximum_interval
    (S * (1 + Real.exp (w 8) * (11 - D) * S ^ (-(w 9)) *
      (Real.exp (w 10 * (1 - R)) - 1) *
      (if grade = 2 then w 15 else 1) * (if grade = 4 then w 16 else 1)))

/-- `nextForgetStability(D, S, R)` from `fsrs.ts`:
`Math.max(0.1, w[11] * D^(-w[12]) * ((S+1)^w[13] - 1) * exp(w[14]*(1-R)))`. -/
def nextForgetStability (D S R : ℝ) : ℝ :=
  max 0.1 (w 11 * D ^ (-(w 12)) * ((S + 1) ^ (w 13) - 1) * Real.exp (w 14 * (1 - R)))

/-- JavaScript `Math.round`: round half up. -/
def jsRound (x : ℝ) : ℤ := ⌊x + 1 / 2⌋

/-- `parseFloat(x.toFixed(2))` for the non-negative values stored by the
scheduler: round to the nearest multiple of 1/100, ties upward. -/
def round2 (x : ℝ) : ℝ := (⌊x * 100 + 1 / 2⌋ : ℤ) / 100

/-- `nextInterval(S, now, isShortTerm)` from `fsrs.ts`, with the returned
absolute due date expressed in days:
`days = S * (9 * (1 / P.request_retention - 1))`; for a normal review
`days = Math.max(1, Math.round(days))`, for a short-term (learning or
relearning) step `days = Math.max(0.0035, days)`; the result is
`now + days`. -/
def nextInterval (S : ℝ) (now : ℝ) (isShortTerm : Bool) : ℝ :=
  let factor := 9 * (1 / request_retention - 1)
  let days0 := S * factor
  let days := if isShortTerm then max 0.0035 days0 else max 1 ((jsRound days0 : ℤ) : ℝ)
  now + days

/-- The fields of `Card` read by `fsrs.review` (`src/types`): the memory
state of a single card.  `srsLastReview` is `none` for a card that was
never reviewed (the source stores a missing/empty string there). -/
structure SCard where
  srsState : SrsState
  srsStability : ℝ
  srsDifficulty : ℝ
  srsLastReview : Option ℝ

/-- The `Partial<Card>` object returned by `fsrs.review`. -/
structure ReviewResult where
  srsState : SrsState
  srsStability : ℝ
  srsDifficulty : ℝ
  srsDue : ℝ
  srsLastReview : ℝ

/-- `fsrs.review(card, rating, now)` from `fsrs.ts`, translated branch by
branch.  `card.srsStability || 0` and `card.srsDifficulty || 0` are the
numeric fields themselves (`0` when absent), and
`lastReview = card.srsLastReview ? … : now`. -/
def fsrsReview (card : SCard) (rating : Rating) (now : ℝ) : ReviewResult :=
  let lastReview := card.srsLastReview.getD now
  let elapsedDays := max 0 (now - lastReview)
  let S0 := card.srsStability
  let D0 := card.srsDifficulty
  let R := retrievability S0 elapsedDays
  let grade := gradeOf rating
  if card.srsState == SrsState.new then
    let D := initDifficulty grade
    let S := initStability grade
    let nextState := if rating == Rating.again then SrsState.learning else SrsState.review
    { srsState := nextState
      srsStability := round2 S
      srsDifficulty := round2 D
      srsDue := nextInterval S now (nextState == SrsState.learning)
      srsLastReview := now }
  else
    let nextD := nextDifficulty D0 grade
    let nextS := if rating == Rating.again then nextForgetStability D0 S0 R
                 else nextRecallStability D0 S0 R grade
    let nextState := if rating == Rating.again then SrsState.relearning
                     else if rating == Rating.easy || rating == Rating.good then SrsState.review
                     else card.srsState
    { srsState := nextState
      srsStability := round2 nextS
      srsDifficulty := round2 nextD
      srsDue := nextInterval nextS now (nextState == SrsState.relearning)
      srsLastReview := now }

/-- The stability value that `fsrs.review` passes to `nextInterval`
(before the 2-digit rounding applied when storing). -/
def reviewStability (card : SCard) (rating : Rating) (now : ℝ) : ℝ :=
  let lastReview := card.srsLastReview.getD now
  let elapsedDays := max 0 (now - lastReview)
  let S0 := card.srsStability
  let D0 := card.srsDifficulty
  let R := retrievability S0 elapsedDays
  if card.srsState == SrsState.new then initStability (gradeOf rating)
  else if rating == Rating.again then nextForgetStability D0 S0 R
  else nextRecallStability D0 S0 R (gradeOf rating)

/-- The `isShortTerm` flag that `fsrs.review` passes to `nextInterval`:
in the new-card branch it is `nextState === 'learning'`, in the other
branch `nextState === 'relearning'`. -/
def reviewShortTerm (s : SrsState) (rating : Rating) : Bool :=
  if s == SrsState.new then
    (if rating == Rating.again then SrsState.learning else SrsState.review) == SrsState.learning
  else
    (if rating == Rating.again then SrsState.relearning
     else if rating == Rating.easy || rating == Rating.good then SrsState.review
     else s) == SrsState.relearning

end

/-! ### Due classifier and queue layer

`src/utils/srs.ts` and the `Review` component.  Timestamps here are
integer epoch values (the source compares `Date` millisecond epochs).
The `srsDue` string of a card is abstracted by the three cases the source
distinguishes: falsy/unset (`!card.srsDue`), a string that parses to
`NaN`, and a string that parses to a valid epoch. -/

/-- The three relevant shapes of the stored `srsDue` string. -/
inductive DueField where
  | unset
  | malformed
  | valid (t : ℤ)
deriving DecidableEq, Repr

/-- The fields of `Card` read by the queue layer and the due classifier. -/
structure QCard where
  id : ℕ
  srsState : SrsState
  srsDue : DueField
deriving DecidableEq, Repr

/-- `isCardDue(card)` from `src/utils/srs.ts`, with the wall-clock read
`Date.now()` made a parameter:
`if (!card.srsDue) return false;`
`const dueDate = new Date(card.srsDue).getTime();`
`if (isNaN(dueDate)) return false;`
`return dueDate <= now;` -/
def isCardDue (card : QCard) (now : ℤ) : Bool :=
  match card.srsDue with
  | DueField.unset => false
  | DueField.malformed => false
  | DueField.valid t => decide (t ≤ now)

/-- `new Date(c.srsDue).getTime()` as used by the due-card sort in
`loadQueue` (every card sorted there has a valid due value). -/
def dueTime (c : QCard) : ℤ :=
  match c.srsDue with
  | DueField.valid t => t
  | _ => 0

/-- The session snapshot persisted under `mandarin-anki-session`. -/
structure Session where
  queue : List QCard
  initialQueueLength : ℕ
  completedCount : ℕ
deriving DecidableEq, Repr

/-- The settings read by `loadQueue` (`getSettings()`):
`newCardsPerDay` and `reviewLimit` (`0` meaning unlimited). -/
structure ReviewSettings where
  newCardsPerDay : ℕ
  reviewLimit : ℕ
deriving DecidableEq, Repr

/-- The state produced by `loadQueue`: the queue (entries are the results
of the `allCards.find(...)` lookups, so possibly `undefined` = `none`),
the initial length, and the completed count. -/
structure BuiltQueue where
  queue : List (Option QCard)
  initialQueueLength : ℕ
  completedCount : ℕ
deriving DecidableEq, Repr

/-- The fresh new-card selection of `loadQueue`:
`allCards.filter(c => c.srsState === 'new').slice(0, remainingQuota)` with
`remainingQuota = Math.max(0, dailyLimit - reviewedToday)` (truncated
subtraction on `ℕ`). -/
def freshNew (allCards : List QCard) (newCardsPerDay reviewedToday : ℕ) : List QCard :=
  (allCards.filter (fun c => c.srsState == SrsState.new)).take (newCardsPerDay - reviewedToday)

/-- `Array.from(new Set(l))`: deduplication keeping the first occurrence
of each element, in order. -/
def firstDedup (l : List ℕ) : List ℕ :=
  l.foldl (fun acc x => if x ∈ acc then acc else acc ++ [x]) []

/-- Step 1 of `loadQueue`: the queue restored from the persisted session
(valid only when its queue is non-empty). -/
def restoredQueueOf (saved : Option Session) : List QCard :=
  match saved with
  | some s => if s.queue.length > 0 then s.queue else []
  | none => []

/-- Step 2 of `loadQueue`, due cards: review-state cards due now, sorted
ascending by due time.  (JavaScript's `Array.sort` is stable, as is
insertion sort, and both therefore agree on this total preorder.) -/
def dueCardsOf (allCards : List QCard) (now : ℤ) : List QCard :=
  List.insertionSort (fun a b => dueTime a ≤ dueTime b)
    (allCards.filter (fun c => c.srsState == SrsState.review && isCardDue c now))

/-- Step 2 of `loadQueue`, "priority queue": learning / relearning cards
that are due now. -/
def activeLearningOf (allCards : List QCard) (now : ℤ) : List QCard :=
  allCards.filter (fun c =>
    (c.srsState == SrsState.learning || c.srsState == SrsState.relearning) && isCardDue c now)

/-- Step 2 of `loadQueue`: the combined fresh candidate list
`[...activeLearningCards, ...dueCards, ...newCards]`, truncated to
`settings.reviewLimit` when that limit is positive. -/
def freshCandidatesOf (allCards : List QCard) (settings : ReviewSettings)
    (reviewedToday : ℕ) (now : ℤ) : List QCard :=
  let freshCandidates0 :=
    activeLearningOf allCards now ++ dueCardsOf allCards now ++
      freshNew allCards settings.newCardsPerDay reviewedToday
  if settings.reviewLimit > 0 then freshCandidates0.take settings.reviewLimit
  else freshCandidates0

/-- Step 3 of `loadQueue`: append the fresh candidates whose id is not
already in the restored queue; when no session was restored the queue is
just the fresh candidate list. -/
def mergedQueueOf (restoredQueue freshCandidates : List QCard) : List QCard :=
  let restoredIds := restoredQueue.map QCard.id
  let newToAdd := freshCandidates.filter (fun c => !(restoredIds.contains c.id))
  let merged := if newToAdd.length > 0 then restoredQueue ++ newToAdd else restoredQueue
  if restoredQueue.length = 0 then freshCandidates else merged

/-- Step 4 of `loadQueue`: remove duplicate ids and resolve every id
against the card store:
`Array.from(new Set(finalQueue.map(c => c.id))).map(id => allCards.find(c => c.id === id)!)`.
The non-null assertion `!` is modelled by keeping the `Option` result of
the lookup. -/
def finalQueueOf (allCards : List QCard) (q : List QCard) : List (Option QCard) :=
  (firstDedup (q.map QCard.id)).map (fun i => allCards.find? (fun c => c.id == i))

/-- `loadQueue` from the `Review` component, with its external reads made
parameters: `storage.getCards()` = `allCards`, the persisted
`mandarin-anki-session` = `saved`, `getSettings()` = `settings`,
`storage.getDailyCount()` = `reviewedToday`, and the clock = `now`.
The numbered steps of the source are the `…Of` definitions above;
`session.initialQueueLength || session.queue.length` falls back on a
falsy (0) stored length. -/
def loadQueue (allCards : List QCard) (saved : Option Session)
    (settings : ReviewSettings) (reviewedToday : ℕ) (now : ℤ) : BuiltQueue :=
  let restoredQueue := restoredQueueOf saved
  let restoredLength : ℕ :=
    match saved with
    | some s =>
        if s.queue.length > 0 then
          (if s.initialQueueLength = 0 then s.queue.length else s.initialQueueLength)
        else 0
    | none => 0
  let restoredCount : ℕ :=
    match saved with
    | some s => if s.queue.length > 0 then s.completedCount else 0
    | none => 0
  let freshCandidates := freshCandidatesOf allCards settings reviewedToday now
  let newToAdd := freshCandidates.filter (fun c => !((restoredQueue.map QCard.id).contains c.id))
  let finalLength :=
    if restoredQueue.length = 0 then freshCandidates.length
    else if newToAdd.length > 0 then restoredLength + newToAdd.length else restoredLength
  let finalCount := if restoredQueue.length = 0 then 0 else restoredCount
  ⟨finalQueueOf allCards (mergedQueueOf restoredQueue freshCandidates), finalLength, finalCount⟩

/-- The queue update of `handleRate` in the `Review` component: rating
`again` shifts the head off and splices the updated card back in at
`Math.min(next.length, 3)`; any other rating only shifts the head off. -/
def handleRateQueue (q : List QCard) (updatedCard : QCard) (rating : Rating) : List QCard :=
  if rating == Rating.again then
    let next := q.tail
    next.insertIdx (min next.length 3) updatedCard
  else
    q.tail

/-- The `completedCount` update of `handleRate`: unchanged on `again`,
incremented otherwise. -/
def handleRateCount (completedCount : ℕ) (rating : Rating) : ℕ :=
  if rating == Rating.again then completedCount else completedCount + 1

/-- The state-transition table exactly as claim C2 words it (spec-side
definition, to be compared with the embedded `fsrs.review`): a `new` card
goes to `learning` on `again` and to `review` otherwise; a non-`new` card
goes to `relearning` on `again`, to `review` on `good` or `easy`, and
keeps its current state on `hard`. -/
def nextStateSpec (s : SrsState) (r : Rating) : SrsState :=
  match s, r with
  | SrsState.new, Rating.again => SrsState.learning
  | SrsState.new, _ => SrsState.review
  | _, Rating.again => SrsState.relearning
  | s, Rating.hard => s
  | _, _ => SrsState.review

/-- A card value with the given id, used to instantiate queue theorems on
concrete inputs. -/
def sampleCard (k : ℕ) : QCard :=
  ⟨k, SrsState.review, DueField.unset⟩

/-! ### Helper lemmas about the scheduler -/

lemma fsrsReview_srsState (card : SCard) (rating : Rating) (now : ℝ) :
    (fsrsReview card rating now).srsState = nextStateSpec card.srsState rating := by
  obtain ⟨s, st, d, lr⟩ := card
  cases s <;> cases rating <;> rfl

lemma fsrsReview_srsDue (card : SCard) (rating : Rating) (now : ℝ) :
    (fsrsReview card rating now).srsDue =
      nextInterval (reviewStability card rating now) now
        (reviewShortTerm card.srsState rating) := by
  obtain ⟨s, st, d, lr⟩ := card
  cases s <;> cases rating <;> rfl

/-! ### Claims -/

/-- Claim C2: `review(card, rating, now)` realizes exactly the claimed
state-transition table (`nextStateSpec`): a card in state `new` goes to
`learning` on `again` and to `review` on any other rating; a card not in
state `new` goes to `relearning` on `again`, to `review` on `good` or
`easy`, and keeps its current state on `hard`. -/
theorem C2_state_transition_table (card : SCard) (rating : Rating) (now : ℝ) :
    (fsrsReview card rating now).srsState = nextStateSpec card.srsState rating :=
  fsrsReview_srsState card rating now

/-- Claim C5: the fresh new-card list is the `new`-state cards in their
existing relative order, truncated to `max(0, newCardsPerDay − consumedToday)`
items; in particular it is empty whenever `consumedToday ≥ newCardsPerDay`. -/
theorem C5_new_card_quota (allCards : List QCard) (newCardsPerDay reviewedToday : ℕ) :
    freshNew allCards newCardsPerDay reviewedToday =
      (allCards.filter (fun c => c.srsState == SrsState.new)).take
        (newCardsPerDay - reviewedToday) ∧
    (newCardsPerDay ≤ reviewedToday →
      freshNew allCards newCardsPerDay reviewedToday = []) := by
  refine ⟨rfl, fun h => ?_⟩
  unfold freshNew
  rw [Nat.sub_eq_zero_of_le h, List.take_zero]

/-- Witness for C5 at a concrete input: with one `new` card, a quota of 1
and 1 already consumed, the fresh new-card list is empty. -/
theorem C5_new_card_quota_witness :
    freshNew [⟨3, SrsState.new, DueField.unset⟩] 1 1 = [] :=
  (C5_new_card_quota [⟨3, SrsState.new, DueField.unset⟩] 1 1).2 (by decide)

/-- Claim C6 (counterexample): the due predicate does not inspect the
card's state, so a card in state `new` carrying a stray valid past due
value is classified as due — contradicting the claim that a `new` card is
never due regardless of stray due values. -/
theorem C6_counterexample :
    (⟨0, SrsState.new, DueField.valid 0⟩ : QCard).srsState = SrsState.new ∧
    isCardDue ⟨0, SrsState.new, DueField.valid 0⟩ 0 = true := by
  exact ⟨rfl, rfl⟩

/-- Claim C6 (amended): `isCardDue` returns `false` when the due field is
unset or unparseable, and otherwise returns `true` iff `due ≤ now`; being
a total function it never raises.  (The original claim's additional
guarantee about `new`-state cards does not hold: the predicate ignores
the state field.) -/
theorem C6_due_classifier (card : QCard) (now : ℤ) :
    (card.srsDue = DueField.unset → isCardDue card now = false) ∧
    (card.srsDue = DueField.malformed → isCardDue card now = false) ∧
    (∀ t : ℤ, card.srsDue = DueField.valid t →
      (isCardDue card now = true ↔ t ≤ now)) := by
  obtain ⟨i, s, due⟩ := card
  refine ⟨fun h => ?_, fun h => ?_, fun t h => ?_⟩ <;>
    (cases h; simp [isCardDue])

/-- Witness for C6 at a concrete input: a valid due value 2 against clock
3 is classified due. -/
theorem C6_due_classifier_witness :
    isCardDue ⟨0, SrsState.review, DueField.valid 2⟩ 3 = true ↔ (2 : ℤ) ≤ 3 :=
  (C6_due_classifier ⟨0, SrsState.review, DueField.valid 2⟩ 3).2.2 2 rfl

/-- Claim C4: rating the head `again` removes it from the front and
re-inserts the updated card at position `min(remaining length, 3)`
without touching `completedCount`; in particular for a remaining queue of
length ≥ 3 the card lands at index 3, and for a 5-card queue the new
order is `[c2, c3, c4, u, c5]`.  Rating `hard`/`good`/`easy` removes the
head permanently and increments `completedCount` by exactly 1. -/
theorem C4_again_reinsertion (head updatedCard : QCard) (rest : List QCard) (n : ℕ) :
    handleRateQueue (head :: rest) updatedCard Rating.again =
      rest.insertIdx (min rest.length 3) updatedCard ∧
    (3 ≤ rest.length →
      (handleRateQueue (head :: rest) updatedCard Rating.again)[3]? = some updatedCard) ∧
    (rest.length ≤ 3 →
      handleRateQueue (head :: rest) updatedCard Rating.again = rest ++ [updatedCard]) ∧
    handleRateCount n Rating.again = n ∧
    (∀ r : Rating, r ≠ Rating.again →
      handleRateQueue (head :: rest) updatedCard r = rest ∧
      handleRateCount n r = n + 1) ∧
    (∀ c1 c2 c3 c4 c5 u : QCard,
      handleRateQueue [c1, c2, c3, c4, c5] u Rating.again = [c2, c3, c4, u, c5]) := by
  refine ⟨rfl, ?_, ?_, rfl, ?_, ?_⟩
  · intro hrest
    have hmin : min rest.length 3 = 3 := min_eq_right hrest
    show (rest.insertIdx (min rest.length 3) updatedCard)[3]? = some updatedCard
    rw [hmin]
    have hlen : 3 < (rest.insertIdx 3 updatedCard).length := by
      rw [List.length_insertIdx 3 rest hrest]
      omega
    rw [List.getElem?_eq_getElem hlen]
    exact congrArg some (List.getElem_insertIdx_self rest updatedCard 3 hrest)
  · intro hrest
    have hmin : min rest.length 3 = rest.length := min_eq_left hrest
    show rest.insertIdx (min rest.length 3) updatedCard = rest ++ [updatedCard]
    rw [hmin]
    exact List.insertIdx_length_self rest updatedCard
  · intro r hr
    cases r
    · exact absurd rfl hr
    · exact ⟨rfl, rfl⟩
    · exact ⟨rfl, rfl⟩
    · exact ⟨rfl, rfl⟩
  · intro c1 c2 c3 c4 c5 u
    rfl

/-- Witness for C4 at concrete inputs: a 4-card queue (remaining length 3,
re-inserted card lands at index 3) and a 2-card queue (remaining length 1,
re-inserted card lands at the end). -/
theorem C4_again_reinsertion_witness :
    (handleRateQueue [sampleCard 0, sampleCard 1, sampleCard 2, sampleCard 3]
        (sampleCard 9) Rating.again)[3]? = some (sampleCard 9) ∧
    handleRateQueue [sampleCard 0, sampleCard 1] (sampleCard 9) Rating.again =
      [sampleCard 1] ++ [sampleCard 9] ∧
    handleRateQueue [sampleCard 0, sampleCard 1] (sampleCard 9) Rating.hard =
      [sampleCard 1] ∧
    handleRateCount 0 Rating.hard = 0 + 1 :=
  ⟨(C4_again_reinsertion (sampleCard 0) (sampleCard 9)
      [sampleCard 1, sampleCard 2, sampleCard 3] 0).2.1 (by decide),
    (C4_again_reinsertion (sampleCard 0) (sampleCard 9) [sampleCard 1] 0).2.2.1 (by decide),
    ((C4_again_reinsertion (sampleCard 0) (sampleCard 9) [sampleCard 1] 0).2.2.2.2.1
      Rating.hard (by decide)).1,
    ((C4_again_reinsertion (sampleCard 0) (sampleCard 9) [sampleCard 1] 0).2.2.2.2.1
      Rating.hard (by decide)).2⟩

/-! ### Helper lemmas about the queue assembly -/

lemma firstDedup_loop_nodup (l : List ℕ) :
    ∀ acc : List ℕ, acc.Nodup →
      (l.foldl (fun acc x => if x ∈ acc then acc else acc ++ [x]) acc).Nodup := by
  induction l with
  | nil => exact fun acc h => h
  | cons x xs ih =>
    intro acc h
    simp only [List.foldl_cons]
    by_cases hx : x ∈ acc
    · rw [if_pos hx]
      exact ih acc h
    · rw [if_neg hx]
      refine ih _ (List.nodup_append.2 ⟨h, List.nodup_singleton x, ?_⟩)
      intro a ha hmem
      rw [List.mem_singleton] at hmem
      exact hx (hmem ▸ ha)

lemma firstDedup_nodup (l : List ℕ) : (firstDedup l).Nodup :=
  firstDedup_loop_nodup l [] List.nodup_nil

lemma firstDedup_loop_subset (l : List ℕ) :
    ∀ acc : List ℕ, ∀ x ∈ l.foldl (fun acc x => if x ∈ acc then acc else acc ++ [x]) acc,
      x ∈ acc ∨ x ∈ l := by
  induction l with
  | nil => exact fun acc x hx => Or.inl hx
  | cons y ys ih =>
    intro acc x hx
    simp only [List.foldl_cons] at hx
    by_cases hy : y ∈ acc
    · rw [if_pos hy] at hx
      rcases ih acc x hx with h | h
      · exact Or.inl h
      · exact Or.inr (List.mem_cons_of_mem _ h)
    · rw [if_neg hy] at hx
      rcases ih _ x hx with h | h
      · rcases List.mem_append.1 h with h | h
        · exact Or.inl h
        · rw [List.mem_singleton] at h
          exact Or.inr (h ▸ List.mem_cons_self y ys)
      · exact Or.inr (List.mem_cons_of_mem _ h)

lemma firstDedup_subset {l : List ℕ} {x : ℕ} (hx : x ∈ firstDedup l) : x ∈ l := by
  rcases firstDedup_loop_subset l [] x hx with h | h
  · cases h
  · exact h

lemma map_find_filterMap (allCards : List QCard) (ids : List ℕ) :
    ((ids.map (fun i => allCards.find? (fun c => c.id == i))).filterMap
        (fun o => o.map QCard.id)) =
      ids.filter (fun i => (allCards.find? (fun c => c.id == i)).isSome) := by
  induction ids with
  | nil => rfl
  | cons i is ih =>
    simp only [List.map_cons, List.filterMap_cons, List.filter_cons]
    cases h : allCards.find? (fun c => c.id == i) with
    | none => simpa [h] using ih
    | some c =>
      have hc : c.id = i := by simpa using List.find?_some h
      simp [h, hc, ih]

lemma mem_mergedQueueOf {restoredQueue freshCandidates : List QCard} {c : QCard}
    (hc : c ∈ mergedQueueOf restoredQueue freshCandidates) :
    c ∈ restoredQueue ∨ c ∈ freshCandidates := by
  simp only [mergedQueueOf] at hc
  split at hc
  · exact Or.inr hc
  · split at hc
    · rcases List.mem_append.1 hc with h | h
      · exact Or.inl h
      · exact Or.inr (List.mem_of_mem_filter h)
    · exact Or.inl hc

lemma mem_freshCandidatesOf {allCards : List QCard} {settings : ReviewSettings}
    {reviewedToday : ℕ} {now : ℤ} {c : QCard}
    (hc : c ∈ freshCandidatesOf allCards settings reviewedToday now) : c ∈ allCards := by
  unfold freshCandidatesOf at hc
  have hc0 : c ∈ activeLearningOf allCards now ++ dueCardsOf allCards now ++
      freshNew allCards settings.newCardsPerDay reviewedToday := by
    split at hc
    · exact (List.take_sublist _ _).subset hc
    · exact hc
  rcases List.mem_append.1 hc0 with h | h
  · rcases List.mem_append.1 h with h | h
    · exact List.mem_of_mem_filter h
    · exact List.mem_of_mem_filter ((List.mem_insertionSort _).1 h)
  · exact List.mem_of_mem_filter ((List.take_sublist _ _).subset h)

lemma mem_restoredQueueOf {saved : Option Session} {c : QCard}
    (hc : c ∈ restoredQueueOf saved) : ∃ s, saved = some s ∧ c ∈ s.queue := by
  cases saved with
  | none => simp [restoredQueueOf] at hc
  | some s =>
    simp only [restoredQueueOf] at hc
    refine ⟨s, rfl, ?_⟩
    by_cases h : s.queue.length > 0
    · rwa [if_pos h] at hc
    · rw [if_neg h] at hc
      cases hc

/-- Claim C9: the queue returned by the queue-build step contains no two
entries with the same card id, for any input card set and any persisted
snapshot. -/
theorem C9_no_duplicate_ids (allCards : List QCard) (saved : Option Session)
    (settings : ReviewSettings) (reviewedToday : ℕ) (now : ℤ) :
    ((loadQueue allCards saved settings reviewedToday now).queue.filterMap
      (fun o => o.map QCard.id)).Nodup := by
  show ((finalQueueOf allCards _).filterMap (fun o => o.map QCard.id)).Nodup
  unfold finalQueueOf
  rw [map_find_filterMap]
  exact (firstDedup_nodup _).filter _

/-- Claim C10: when every id in the persisted snapshot's queue occurs in
the full card set, the final lookup of the dedup step always succeeds and
every entry of the returned queue is the card currently stored under that
id; and for some persisted snapshot containing an id absent from the card
set, the returned queue contains an undefined (`none`) entry. -/
theorem C10_lookup_resolution (allCards : List QCard) (saved : Option Session)
    (settings : ReviewSettings) (reviewedToday : ℕ) (now : ℤ)
    (hsnap : ∀ s, saved = some s → ∀ c ∈ s.queue, ∃ cc ∈ allCards, cc.id = c.id) :
    (∀ o ∈ (loadQueue allCards saved settings reviewedToday now).queue,
      ∃ c ∈ allCards, o = some c ∧ allCards.find? (fun x => x.id == c.id) = some c) ∧
    (loadQueue [] (some ⟨[⟨7, SrsState.review, DueField.valid 0⟩], 1, 0⟩)
        ⟨0, 0⟩ 0 0).queue = [none] := by
  constructor
  · intro o ho
    replace ho : o ∈ finalQueueOf allCards
        (mergedQueueOf (restoredQueueOf saved)
          (freshCandidatesOf allCards settings reviewedToday now)) := ho
    unfold finalQueueOf at ho
    obtain ⟨i, hi, rfl⟩ := List.mem_map.1 ho
    obtain ⟨card, hcard, rfl⟩ := List.mem_map.1 (firstDedup_subset hi)
    have cert : ∃ cc ∈ allCards, cc.id = card.id := by
      rcases mem_mergedQueueOf hcard with h | h
      · obtain ⟨s, hs, hmem⟩ := mem_restoredQueueOf h
        exact hsnap s hs card hmem
      · exact ⟨card, mem_freshCandidatesOf h, rfl⟩
    have hne : allCards.find? (fun c => c.id == card.id) ≠ none := by
      intro hnone
      obtain ⟨cc, hcc, hid⟩ := cert
      have := List.find?_eq_none.1 hnone cc hcc
      simp [hid] at this
    obtain ⟨c, hc⟩ := Option.ne_none_iff_exists'.1 hne
    have hcid : c.id = card.id := by simpa using List.find?_some hc
    refine ⟨c, List.mem_of_find?_eq_some hc, hc, ?_⟩
    rw [hcid]
    exact hc
  · rfl

/-- Witness for C10 at a concrete input (empty card set, no snapshot). -/
theorem C10_lookup_resolution_witness :
    (∀ o ∈ (loadQueue [] none ⟨0, 0⟩ 0 0).queue,
      ∃ c ∈ ([] : List QCard), o = some c ∧
        ([] : List QCard).find? (fun x => x.id == c.id) = some c) ∧
    (loadQueue [] (some ⟨[⟨7, SrsState.review, DueField.valid 0⟩], 1, 0⟩)
        ⟨0, 0⟩ 0 0).queue = [none] :=
  C10_lookup_resolution [] none ⟨0, 0⟩ 0 0 (fun _ hs => nomatch hs)

/-! ### Helper lemmas about the memory model -/

lemma retrievability_le_one {S elapsed : ℝ} (hS : 0 < S) (he : 0 ≤ elapsed) :
    retrievability S elapsed ≤ 1 := by
  have h9 : (0:ℝ) < 9 * S := by linarith
  have hx : 0 ≤ elapsed / (9 * S) := div_nonneg he h9.le
  have h1 : (1:ℝ) ≤ 1 + elapsed / (9 * S) := by linarith
  unfold retrievability
  exact inv_le_one_of_one_le₀ h1

lemma retrievability_zero (S : ℝ) : retrievability S 0 = 1 := by
  unfold retrievability
  norm_num

lemma recall_core_nonneg {D S R : ℝ} (hD : D ≤ 10) (hS : 0 ≤ S) (hR : R ≤ 1) :
    0 ≤ Real.exp (w 8) * (11 - D) * S ^ (-(w 9)) * (Real.exp (w 10 * (1 - R)) - 1) := by
  have h1 : (0:ℝ) ≤ Real.exp (w 8) := (Real.exp_pos _).le
  have h2 : (0:ℝ) ≤ 11 - D := by linarith
  have h3 : (0:ℝ) ≤ S ^ (-(w 9)) := Real.rpow_nonneg hS _
  have h4 : (0:ℝ) ≤ Real.exp (w 10 * (1 - R)) - 1 := by
    have hx : (0:ℝ) ≤ w 10 * (1 - R) := mul_nonneg (by norm_num [w]) (by linarith)
    have := Real.one_le_exp hx
    linarith
  exact mul_nonneg (mul_nonneg (mul_nonneg h1 h2) h3) h4

lemma hardPenalty_nonneg (grade : ℕ) : (0:ℝ) ≤ if grade = 2 then w 15 else 1 := by
  split_ifs <;> norm_num [w]

lemma easyBonus_nonneg (grade : ℕ) : (0:ℝ) ≤ if grade = 4 then w 16 else 1 := by
  split_ifs <;> norm_num [w]

/-- At retrievability 1 (zero elapsed time) the recall-path bracket
vanishes, so the recall stability is the old stability capped at the
maximum interval. -/
lemma recall_R1_inner (D S : ℝ) (grade : ℕ) :
    nextRecallStability D S 1 grade = min maximum_interval S := by
  unfold nextRecallStability
  have hexp : Real.exp (w 10 * (1 - 1)) - 1 = 0 := by simp
  rw [hexp, mul_zero, zero_mul, zero_mul, add_zero, mul_one]

lemma recall_at_R1 (D S : ℝ) (grade : ℕ) (hcap : S ≤ 36500) :
    nextRecallStability D S 1 grade = S := by
  rw [recall_R1_inner]
  exact min_eq_right (by unfold maximum_interval; exact hcap)

/-- Certify an upper bound on a real power from a comparison of integer
powers: if `p·n = m` and `x^m ≤ c^n` then `x^p ≤ c`. -/
lemma rpow_le_of_pow_cert {x c : ℝ} {p : ℝ} {n m : ℕ} (hx : 0 ≤ x) (hc : 0 ≤ c)
    (hn : n ≠ 0) (hp : p * (n : ℝ) = (m : ℝ)) (h : x ^ m ≤ c ^ n) : x ^ p ≤ c := by
  refine le_of_pow_le_pow_left hn hc ?_
  calc (x ^ p) ^ n = x ^ (p * (n : ℝ)) := by
        rw [← Real.rpow_natCast (x ^ p) n, ← Real.rpow_mul hx]
    _ = x ^ (m : ℝ) := by rw [hp]
    _ = x ^ m := Real.rpow_natCast x m
    _ ≤ c ^ n := h

/-- Certify a lower bound on a real power from a comparison of integer
powers: if `p·n = m` and `c^n ≤ x^m` then `c ≤ x^p`. -/
lemma le_rpow_of_pow_cert {x c : ℝ} {p : ℝ} {n m : ℕ} (hx : 0 ≤ x)
    (hn : n ≠ 0) (hp : p * (n : ℝ) = (m : ℝ)) (h : c ^ n ≤ x ^ m) : c ≤ x ^ p := by
  refine le_of_pow_le_pow_left hn (Real.rpow_nonneg hx p) ?_
  calc c ^ n ≤ x ^ m := h
    _ = x ^ (m : ℝ) := (Real.rpow_natCast x m).symm
    _ = x ^ (p * (n : ℝ)) := by rw [hp]
    _ = (x ^ p) ^ (n : ℝ) := Real.rpow_mul hx _ _
    _ = (x ^ p) ^ n := Real.rpow_natCast _ n

/-- Five-digit upper bound on `e`, from Mathlib's nine-digit bound. -/
lemma e_up : Real.exp 1 ≤ 2.7183 := Real.exp_one_lt_d9.le.trans (by norm_num)

/-- Five-digit lower bound on `e`, from Mathlib's nine-digit bound. -/
lemma e_low : (2.71828:ℝ) ≤ Real.exp 1 := le_trans (by norm_num) Real.exp_one_gt_d9.le

/-- `exp 1.26 ≤ 3.5338`, from the decimal bounds on `e`. -/
lemma exp126_le : Real.exp 1.26 ≤ 3.5338 := by
  rw [← Real.exp_one_rpow (1.26:ℝ)]
  refine le_trans (Real.rpow_le_rpow (Real.exp_pos 1).le e_up (by norm_num)) ?_
  exact rpow_le_of_pow_cert (by norm_num) (by norm_num) (by norm_num)
    (by norm_num : (1.26:ℝ) * ((50:ℕ) : ℝ) = ((63:ℕ) : ℝ)) (by norm_num)

/-- `2.5255 ≤ exp 0.94`. -/
lemma exp094_ge : (2.5255:ℝ) ≤ Real.exp 0.94 := by
  rw [← Real.exp_one_rpow (0.94:ℝ)]
  refine le_trans ?_ (Real.rpow_le_rpow (by norm_num) e_low (by norm_num))
  exact le_rpow_of_pow_cert (by norm_num) (by norm_num)
    (by norm_num : (0.94:ℝ) * ((50:ℕ) : ℝ) = ((47:ℕ) : ℝ)) (by norm_num)

/-- `exp 0.94 ≤ 2.5623`. -/
lemma exp094_le : Real.exp 0.94 ≤ 2.5623 := by
  rw [← Real.exp_one_rpow (0.94:ℝ)]
  refine le_trans (Real.rpow_le_rpow (Real.exp_pos 1).le e_up (by norm_num)) ?_
  exact rpow_le_of_pow_cert (by norm_num) (by norm_num) (by norm_num)
    (by norm_num : (0.94:ℝ) * ((50:ℕ) : ℝ) = ((47:ℕ) : ℝ)) (by norm_num)

/-- `4.3734 ≤ exp 1.49`. -/
lemma exp149_ge : (4.3734:ℝ) ≤ Real.exp 1.49 := by
  rw [← Real.exp_one_rpow (1.49:ℝ)]
  refine le_trans ?_ (Real.rpow_le_rpow (by norm_num) e_low (by norm_num))
  exact le_rpow_of_pow_cert (by norm_num) (by norm_num)
    (by norm_num : (1.49:ℝ) * ((100:ℕ) : ℝ) = ((149:ℕ) : ℝ)) (by norm_num)

/-- Chord bound for the two exponentials of the memory model: on
`u ∈ [0,1]`, convexity of `x ↦ x^(63/47)` on `[1, e^0.94]` gives
`e^(1.26u) ≤ 1 + 1.67·(e^(0.94u) − 1)`. -/
lemma exp_chord {u : ℝ} (h0 : 0 ≤ u) (h1 : u ≤ 1) :
    Real.exp (1.26 * u) ≤ 1 + 1.67 * (Real.exp (0.94 * u) - 1) := by
  set t := Real.exp (0.94 * u) with ht
  set M := Real.exp (0.94:ℝ) with hM
  have ht1 : 1 ≤ t := Real.one_le_exp (by nlinarith)
  have htM : t ≤ M := Real.exp_le_exp.2 (by nlinarith)
  have hM1 : (1:ℝ) < M := lt_of_lt_of_le (by norm_num) exp094_ge
  have hMden : (0:ℝ) < M - 1 := by linarith
  have hconv := convexOn_rpow (by norm_num : (1:ℝ) ≤ (63:ℝ)/47)
  have ha : 0 ≤ (M - t) / (M - 1) := div_nonneg (by linarith) hMden.le
  have hb : 0 ≤ (t - 1) / (M - 1) := div_nonneg (by linarith) hMden.le
  have hab : (M - t) / (M - 1) + (t - 1) / (M - 1) = 1 := by
    field_simp
  have key := hconv.2 (Set.mem_Ici.2 (by norm_num : (0:ℝ) ≤ 1))
    (Set.mem_Ici.2 (by linarith : (0:ℝ) ≤ M)) ha hb hab
  simp only [smul_eq_mul] at key
  have hpoint : (M - t) / (M - 1) * 1 + (t - 1) / (M - 1) * M = t := by
    field_simp
    ring
  rw [hpoint, Real.one_rpow] at key
  have ht63 : t ^ ((63:ℝ)/47) = Real.exp (1.26 * u) := by
    rw [ht, ← Real.exp_mul]
    congr 1
    ring
  have hM63 : M ^ ((63:ℝ)/47) = Real.exp 1.26 := by
    rw [hM, ← Real.exp_mul]
    norm_num
  rw [ht63, hM63] at key
  refine key.trans ?_
  have hEk : Real.exp 1.26 - 1 ≤ 1.67 * (M - 1) := by
    have := exp126_le
    have := exp094_ge
    linarith
  have heq : (M - t) / (M - 1) * 1 + (t - 1) / (M - 1) * Real.exp 1.26 =
      ((M - t) + (t - 1) * Real.exp 1.26) / (M - 1) := by
    field_simp
  rw [heq, div_le_iff hMden]
  nlinarith [mul_le_mul_of_nonneg_left hEk (by linarith : (0:ℝ) ≤ t - 1)]

/-- Bernoulli: `(S+1)^0.34 − 1 ≤ 0.34·S` for `S ≥ 0`. -/
lemma bern034 {S : ℝ} (hS : 0 ≤ S) : (S + 1) ^ ((0.34:ℝ)) - 1 ≤ 0.34 * S := by
  have h : (S + 1) ^ ((0.34:ℝ)) ≤ 1 + 0.34 * S := by
    rw [add_comm S 1]
    exact rpow_one_add_le_one_add_mul_self (by linarith) (by norm_num) (by norm_num)
  linarith

/-- `(S+1)^0.34 − 1` is non-negative for `S ≥ 0`. -/
lemma B34_nonneg {S : ℝ} (hS : 0 ≤ S) : 0 ≤ (S + 1) ^ ((0.34:ℝ)) - 1 := by
  have h1 : (1:ℝ) ≤ (S + 1) ^ ((0.34:ℝ)) := by
    calc (1:ℝ) = (S + 1) ^ (0:ℝ) := (Real.rpow_zero _).symm
      _ ≤ (S + 1) ^ ((0.34:ℝ)) :=
        Real.rpow_le_rpow_of_exponent_le (by linarith) (by norm_num)
  linarith

/-- Monotone bound for the forget-path bracket on an interval `S+1 ≤ A`. -/
lemma B34_le_of_le {S A c : ℝ} (hS : 0 ≤ S) (hA : S + 1 ≤ A) (hc : 0 ≤ c)
    (hcert : A ^ ((0.34:ℝ)) ≤ c) : (S + 1) ^ ((0.34:ℝ)) - 1 ≤ c - 1 := by
  have h := Real.rpow_le_rpow (by linarith : (0:ℝ) ≤ S + 1) hA (by norm_num : (0:ℝ) ≤ 0.34)
  linarith

/-- Antitone bound for `S^(−0.14)` on an interval `S ≤ A`. -/
lemma P14_ge_of_le {S A d : ℝ} (hS0 : 0 < S) (hA : S ≤ A)
    (hcert : A ^ ((0.14:ℝ)) ≤ d) : d⁻¹ ≤ S ^ (-(0.14:ℝ)) := by
  have h1 : S ^ ((0.14:ℝ)) ≤ d :=
    le_trans (Real.rpow_le_rpow hS0.le hA (by norm_num)) hcert
  have h2 : 0 < S ^ ((0.14:ℝ)) := Real.rpow_pos_of_pos hS0 _
  rw [Real.rpow_neg hS0.le]
  exact inv_le_inv_of_le h2 h1

lemma retrievability_nonneg {S elapsed : ℝ} (hS : 0 < S) (he : 0 ≤ elapsed) :
    0 ≤ retrievability S elapsed := by
  unfold retrievability
  have h9 : (0:ℝ) < 9 * S := by linarith
  have hx : 0 ≤ elapsed / (9 * S) := div_nonneg he h9.le
  exact inv_nonneg.2 (by linarith)

/-- `nextForgetStability` with the weights evaluated. -/
lemma nextForget_eq (D S R : ℝ) :
    nextForgetStability D S R =
      max 0.1 (2.18 * D ^ (-(0.05:ℝ)) * ((S + 1) ^ ((0.34:ℝ)) - 1) *
        Real.exp (1.26 * (1 - R))) := by
  unfold nextForgetStability
  norm_num [w]

/-- `nextRecallStability` at grade 2 (hard) with the weights evaluated. -/
lemma nextRecall2_eq (D S R : ℝ) :
    nextRecallStability D S R 2 =
      min 36500 (S * (1 + Real.exp 1.49 * (11 - D) * S ^ (-(0.14:ℝ)) *
        (Real.exp (0.94 * (1 - R)) - 1) * 0.29)) := by
  unfold nextRecallStability maximum_interval
  norm_num [w]

/-- Leaf of the interval split for `S ≤ 2`: with the Bernoulli bound
`B ≤ 0.34·S` and a lower bound `q ≤ P`, the comparison is linear in
`G ∈ [0, 1.5623]`, so the endpoint condition at `G = 1.5623` settles it. -/
lemma leaf_bound_bern {S G E B P q : ℝ} (hG0 : 0 ≤ G) (hG1 : G ≤ 1.5623)
    (hBE : B * E ≤ B * (1 + 1.67 * G)) (hBb : B ≤ 0.34 * S) (hPb : q ≤ P)
    (hS0 : 0 < S) (hq0 : 0 ≤ q)
    (hend : (0.7412:ℝ) * (1 + 1.67 * 1.5623) ≤ 1 + 1.268 * q * 1.5623) :
    2.18 * (B * E) ≤ S + 1.268 * (S * (P * G)) := by
  have hfac : (0:ℝ) ≤ 1 + 1.67 * G := by linarith
  have h1 : B * (1 + 1.67 * G) ≤ 0.34 * S * (1 + 1.67 * G) :=
    mul_le_mul_of_nonneg_right hBb hfac
  have key : (0.7412:ℝ) * (1 + 1.67 * G) ≤ 1 + 1.268 * q * G := by
    rcases le_total (0.7412 * 1.67) (1.268 * q) with hsl | hsl
    · nlinarith [mul_le_mul_of_nonneg_left hsl hG0]
    · nlinarith [mul_le_mul_of_nonneg_left hG1
        (by linarith : (0:ℝ) ≤ 0.7412 * 1.67 - 1.268 * q)]
  have h2 : S * (0.7412 * (1 + 1.67 * G)) ≤ S * (1 + 1.268 * q * G) :=
    mul_le_mul_of_nonneg_left key hS0.le
  have h3 : q * G ≤ P * G := mul_le_mul_of_nonneg_right hPb hG0
  nlinarith [h1, h2, mul_le_mul_of_nonneg_left h3 hS0.le, hBE]

/-- Leaf of the interval split for an interval `[lo, hi]`: with a
constant bound `B ≤ c − 1` and a lower bound `q ≤ P`, the comparison is
linear in `G ∈ [0, 1.5623]`, so the two endpoint conditions settle it. -/
lemma leaf_bound_const {S G E B P c q lo : ℝ} (hG0 : 0 ≤ G) (hG1 : G ≤ 1.5623)
    (hBE : B * E ≤ B * (1 + 1.67 * G)) (hBb : B ≤ c - 1) (hPb : q ≤ P)
    (hlo : lo ≤ S) (hS0 : 0 < S) (hq0 : 0 ≤ q)
    (hend0 : 2.18 * (c - 1) ≤ lo)
    (hend1 : 2.18 * (c - 1) * (1 + 1.67 * 1.5623) ≤ lo * (1 + 1.268 * q * 1.5623)) :
    2.18 * (B * E) ≤ S + 1.268 * (S * (P * G)) := by
  have hfac : (0:ℝ) ≤ 1 + 1.67 * G := by linarith
  have h1 : B * (1 + 1.67 * G) ≤ (c - 1) * (1 + 1.67 * G) :=
    mul_le_mul_of_nonneg_right hBb hfac
  have key : 2.18 * ((c - 1) * (1 + 1.67 * G)) ≤ lo * (1 + 1.268 * q * G) := by
    nlinarith [mul_nonneg (sub_nonneg.2 hG1) (sub_nonneg.2 hend0),
      mul_nonneg hG0 (sub_nonneg.2 hend1)]
  have hqG : (0:ℝ) ≤ 1 + 1.268 * q * G := by
    have := mul_nonneg hq0 hG0
    linarith
  have h2 : lo * (1 + 1.268 * q * G) ≤ S * (1 + 1.268 * q * G) :=
    mul_le_mul_of_nonneg_right hlo hqG
  have h3 : q * G ≤ P * G := mul_le_mul_of_nonneg_right hPb hG0
  nlinarith [h1, key, h2, mul_le_mul_of_nonneg_left h3 hS0.le, hBE]

/-- Leaf of the interval split for `S ≥ 40`: there the forget value is
below `S` itself, using `A = S^0.34`, `T = S^0.66`, `A·T = S`. -/
lemma leaf_bound_tail {S A T B E P G : ℝ} (hA0 : 0 ≤ A) (hT : (7.78:ℝ) ≤ T)
    (hBb : B ≤ 1.009 * A) (hEup : E ≤ 3.5338) (hE1 : 1 ≤ E)
    (hsplit : A * T = S) (hSPG : 0 ≤ S * (P * G)) :
    2.18 * (B * E) ≤ S + 1.268 * (S * (P * G)) := by
  have hbe : B * E ≤ 1.009 * A * 3.5338 :=
    mul_le_mul hBb hEup (by linarith) (by linarith)
  nlinarith [hbe, hSPG, mul_le_mul_of_nonneg_left hT hA0, hsplit]

/-- On `S ≥ 40` the forget bracket is at most `1.009·S^0.34`,
since `S + 1 ≤ 1.025·S` and `1.025^0.34 ≤ 1.009`. -/
lemma B34_tail {S : ℝ} (hS0 : 0 < S) (hS40 : 40 ≤ S) :
    (S + 1) ^ ((0.34:ℝ)) - 1 ≤ 1.009 * S ^ ((0.34:ℝ)) := by
  have hS34 : (0:ℝ) ≤ S ^ ((0.34:ℝ)) := Real.rpow_nonneg hS0.le _
  have h1 : S + 1 ≤ 1.025 * S := by linarith
  have h2 : (S + 1) ^ ((0.34:ℝ)) ≤ (1.025 * S) ^ ((0.34:ℝ)) :=
    Real.rpow_le_rpow (by linarith) h1 (by norm_num)
  have h3 : ((1.025:ℝ) * S) ^ ((0.34:ℝ)) = (1.025:ℝ) ^ ((0.34:ℝ)) * S ^ ((0.34:ℝ)) :=
    Real.mul_rpow (by norm_num) hS0.le
  have h4 : (1.025:ℝ) ^ ((0.34:ℝ)) ≤ 1.009 :=
    rpow_le_of_pow_cert (by norm_num) (by norm_num) (by norm_num)
      (by norm_num : (0.34:ℝ) * ((50:ℕ) : ℝ) = ((17:ℕ) : ℝ))
      (by norm_num : (1.025:ℝ) ^ 17 ≤ (1.009:ℝ) ^ 50)
  have h5 : (1.025:ℝ) ^ ((0.34:ℝ)) * S ^ ((0.34:ℝ)) ≤ 1.009 * S ^ ((0.34:ℝ)) :=
    mul_le_mul_of_nonneg_right h4 hS34
  linarith

/-- On `S ≥ 40`, `7.78 ≤ S^0.66`. -/
lemma S66_tail {S : ℝ} (hS40 : 40 ≤ S) : (7.78:ℝ) ≤ S ^ ((0.66:ℝ)) := by
  have h1 : (40:ℝ) ^ ((0.66:ℝ)) ≤ S ^ ((0.66:ℝ)) :=
    Real.rpow_le_rpow (by norm_num) hS40 (by norm_num)
  have h2 : (7.78:ℝ) ≤ (40:ℝ) ^ ((0.66:ℝ)) :=
    le_rpow_of_pow_cert (by norm_num) (by norm_num)
      (by norm_num : (0.66:ℝ) * ((50:ℕ) : ℝ) = ((33:ℕ) : ℝ))
      (by norm_num : (7.78:ℝ) ^ 50 ≤ (40:ℝ) ^ 33)
  linarith

/-- `S^0.34 · S^0.66 = S` for positive `S`. -/
lemma Ssplit_34_66 {S : ℝ} (hS0 : 0 < S) : S ^ ((0.34:ℝ)) * S ^ ((0.66:ℝ)) = S := by
  rw [← Real.rpow_add hS0]
  norm_num

/-- The forget bracket is at most `35` whenever `S ≤ 36500`. -/
lemma B34_cap {S : ℝ} (hS0 : 0 < S) (hcap : S ≤ 36500) :
    (S + 1) ^ ((0.34:ℝ)) - 1 ≤ 35 := by
  have h1 : (S + 1 : ℝ) ^ ((0.34:ℝ)) ≤ (36501:ℝ) ^ ((0.34:ℝ)) :=
    Real.rpow_le_rpow (by linarith) (by linarith) (by norm_num)
  have h2 : (36501:ℝ) ^ ((0.34:ℝ)) ≤ 36 :=
    rpow_le_of_pow_cert (by norm_num) (by norm_num) (by norm_num)
      (by norm_num : (0.34:ℝ) * ((50:ℕ):ℝ) = ((17:ℕ):ℝ)) (by norm_num)
  linarith

set_option maxHeartbeats 1600000 in
/-- Core of the forget/recall comparison: for valid inputs with
`S ≤ 36500` and any retrievability `R ∈ [0, 1]`, the forget-path
stability never exceeds the hard-grade recall-path stability.  The proof
splits the stability range into intervals; on each, the forget bracket
`(S+1)^0.34 − 1` and the factor `S^(−0.14)` are certified against
rational constants, while the two exponentials are compared through the
chord bound `exp_chord`. -/
lemma forget_le_recall_hard {D S R : ℝ} (hD1 : 1 ≤ D) (hD2 : D ≤ 10)
    (hS : 0.1 ≤ S) (hcap : S ≤ 36500) (hR0 : 0 ≤ R) (hR1 : R ≤ 1) :
    nextForgetStability D S R ≤ nextRecallStability D S R 2 := by
  have hS0 : (0:ℝ) < S := by linarith
  rw [nextForget_eq, nextRecall2_eq]
  set u := 1 - R with hu
  have hu0 : 0 ≤ u := by rw [hu]; linarith
  have hu1 : u ≤ 1 := by rw [hu]; linarith
  set G := Real.exp (0.94 * u) - 1 with hGdef
  set E := Real.exp (1.26 * u) with hEdef
  set B := (S + 1) ^ ((0.34:ℝ)) - 1 with hBdef
  set P := S ^ (-(0.14:ℝ)) with hPdef
  set Dp := D ^ (-(0.05:ℝ)) with hDpdef
  have hG0 : 0 ≤ G := by
    rw [hGdef]
    have := Real.one_le_exp (mul_nonneg (by norm_num) hu0 : (0:ℝ) ≤ 0.94 * u)
    linarith
  have hG1 : G ≤ 1.5623 := by
    rw [hGdef]
    have h1 : Real.exp (0.94 * u) ≤ Real.exp 0.94 := Real.exp_le_exp.2 (by nlinarith)
    have := exp094_le
    linarith
  have hE1 : 1 ≤ E := by
    rw [hEdef]
    exact Real.one_le_exp (mul_nonneg (by norm_num) hu0)
  have hEup : E ≤ 3.5338 := by
    rw [hEdef]
    have h1 : Real.exp (1.26 * u) ≤ Real.exp 1.26 := Real.exp_le_exp.2 (by nlinarith)
    have := exp126_le
    linarith
  have hEch : E ≤ 1 + 1.67 * G := by
    rw [hEdef, hGdef]
    exact exp_chord hu0 hu1
  have hB0 : 0 ≤ B := by
    rw [hBdef]
    exact B34_nonneg hS0.le
  have hP0 : 0 < P := by
    rw [hPdef]
    exact Real.rpow_pos_of_pos hS0 _
  have hDp0 : 0 ≤ Dp := by
    rw [hDpdef]
    exact Real.rpow_nonneg (by linarith) _
  have hDp1 : Dp ≤ 1 := by
    rw [hDpdef]
    exact Real.rpow_le_one_of_one_le_of_nonpos hD1 (by norm_num)
  have hSPG : 0 ≤ S * (P * G) := mul_nonneg hS0.le (mul_nonneg hP0.le hG0)
  have hBE : B * E ≤ B * (1 + 1.67 * G) := mul_le_mul_of_nonneg_left hEch hB0
  have hBmax : B ≤ 35 := by
    rw [hBdef]
    exact B34_cap hS0 hcap
  have hcore : 2.18 * (B * E) ≤ S + 1.268 * (S * (P * G)) := by
    rcases le_total S 1 with hr | hr
    · -- S ∈ [0.1, 1]: Bernoulli bound and S^(−0.14) ≥ 1
      have hBb : B ≤ 0.34 * S := by
        rw [hBdef]
        exact bern034 hS0.le
      have hPb : (1:ℝ) ≤ P := by
        rw [hPdef]
        have h := P14_ge_of_le hS0 hr (le_of_eq (Real.one_rpow _))
        simpa using h
      exact leaf_bound_bern hG0 hG1 hBE hBb hPb hS0 (by norm_num) (by norm_num)
    · rcases le_total S 2 with hr2 | hr2
      · -- S ∈ [1, 2]
        have hBb : B ≤ 0.34 * S := by
          rw [hBdef]
          exact bern034 hS0.le
        have hPb : ((1.103:ℝ))⁻¹ ≤ P := by
          rw [hPdef]
          exact P14_ge_of_le hS0 hr2
            (rpow_le_of_pow_cert (by norm_num) (by norm_num) (by norm_num)
              (by norm_num : (0.14:ℝ) * ((50:ℕ):ℝ) = ((7:ℕ):ℝ))
              (by norm_num : (2:ℝ) ^ 7 ≤ (1.103:ℝ) ^ 50))
        exact leaf_bound_bern hG0 hG1 hBE hBb hPb hS0 (by norm_num) (by norm_num)
      · rcases le_total S 3 with hr3 | hr3
        · -- S ∈ [2, 3]
          have hBb : B ≤ (1.603:ℝ) - 1 := by
            rw [hBdef]
            exact B34_le_of_le hS0.le (by linarith : S + 1 ≤ (4:ℝ)) (by norm_num)
              (rpow_le_of_pow_cert (by norm_num) (by norm_num) (by norm_num)
                (by norm_num : (0.34:ℝ) * ((50:ℕ):ℝ) = ((17:ℕ):ℝ))
                (by norm_num : (4:ℝ) ^ 17 ≤ (1.603:ℝ) ^ 50))
          have hPb : ((1.167:ℝ))⁻¹ ≤ P := by
            rw [hPdef]
            exact P14_ge_of_le hS0 hr3
              (rpow_le_of_pow_cert (by norm_num) (by norm_num) (by norm_num)
                (by norm_num : (0.14:ℝ) * ((50:ℕ):ℝ) = ((7:ℕ):ℝ))
                (by norm_num : (3:ℝ) ^ 7 ≤ (1.167:ℝ) ^ 50))
          exact leaf_bound_const hG0 hG1 hBE hBb hPb hr2 hS0 (by norm_num)
            (by norm_num) (by norm_num)
        · rcases le_total S 4.5 with hr4 | hr4
          · -- S ∈ [3, 4.5]
            have hBb : B ≤ (1.786:ℝ) - 1 := by
              rw [hBdef]
              exact B34_le_of_le hS0.le (by linarith : S + 1 ≤ (5.5:ℝ)) (by norm_num)
                (rpow_le_of_pow_cert (by norm_num) (by norm_num) (by norm_num)
                  (by norm_num : (0.34:ℝ) * ((50:ℕ):ℝ) = ((17:ℕ):ℝ))
                  (by norm_num : (5.5:ℝ) ^ 17 ≤ (1.786:ℝ) ^ 50))
            have hPb : ((1.235:ℝ))⁻¹ ≤ P := by
              rw [hPdef]
              exact P14_ge_of_le hS0 hr4
                (rpow_le_of_pow_cert (by norm_num) (by norm_num) (by norm_num)
                  (by norm_num : (0.14:ℝ) * ((50:ℕ):ℝ) = ((7:ℕ):ℝ))
                  (by norm_num : (4.5:ℝ) ^ 7 ≤ (1.235:ℝ) ^ 50))
            exact leaf_bound_const hG0 hG1 hBE hBb hPb hr3 hS0 (by norm_num)
              (by norm_num) (by norm_num)
          · rcases le_total S 7 with hr5 | hr5
            · -- S ∈ [4.5, 7]
              have hBb : B ≤ (2.028:ℝ) - 1 := by
                rw [hBdef]
                exact B34_le_of_le hS0.le (by linarith : S + 1 ≤ (8:ℝ)) (by norm_num)
                  (rpow_le_of_pow_cert (by norm_num) (by norm_num) (by norm_num)
                    (by norm_num : (0.34:ℝ) * ((50:ℕ):ℝ) = ((17:ℕ):ℝ))
                    (by norm_num : (8:ℝ) ^ 17 ≤ (2.028:ℝ) ^ 50))
              have hPb : ((1.3135:ℝ))⁻¹ ≤ P := by
                rw [hPdef]
                exact P14_ge_of_le hS0 hr5
                  (rpow_le_of_pow_cert (by norm_num) (by norm_num) (by norm_num)
                    (by norm_num : (0.14:ℝ) * ((50:ℕ):ℝ) = ((7:ℕ):ℝ))
                    (by norm_num : (7:ℝ) ^ 7 ≤ (1.3135:ℝ) ^ 50))
              exact leaf_bound_const hG0 hG1 hBE hBb hPb hr4 hS0 (by norm_num)
                (by norm_num) (by norm_num)
            · rcases le_total S 11 with hr6 | hr6
              · -- S ∈ [7, 11]
                have hBb : B ≤ (2.328:ℝ) - 1 := by
                  rw [hBdef]
                  exact B34_le_of_le hS0.le (by linarith : S + 1 ≤ (12:ℝ)) (by norm_num)
                    (rpow_le_of_pow_cert (by norm_num) (by norm_num) (by norm_num)
                      (by norm_num : (0.34:ℝ) * ((50:ℕ):ℝ) = ((17:ℕ):ℝ))
                      (by norm_num : (12:ℝ) ^ 17 ≤ (2.328:ℝ) ^ 50))
                have hPb : ((1.399:ℝ))⁻¹ ≤ P := by
                  rw [hPdef]
                  exact P14_ge_of_le hS0 hr6
                    (rpow_le_of_pow_cert (by norm_num) (by norm_num) (by norm_num)
                      (by norm_num : (0.14:ℝ) * ((50:ℕ):ℝ) = ((7:ℕ):ℝ))
                      (by norm_num : (11:ℝ) ^ 7 ≤ (1.399:ℝ) ^ 50))
                exact leaf_bound_const hG0 hG1 hBE hBb hPb hr5 hS0 (by norm_num)
                  (by norm_num) (by norm_num)
              · rcases le_total S 17 with hr7 | hr7
                · -- S ∈ [11, 17]
                  have hBb : B ≤ (2.672:ℝ) - 1 := by
                    rw [hBdef]
                    exact B34_le_of_le hS0.le (by linarith : S + 1 ≤ (18:ℝ)) (by norm_num)
                      (rpow_le_of_pow_cert (by norm_num) (by norm_num) (by norm_num)
                        (by norm_num : (0.34:ℝ) * ((50:ℕ):ℝ) = ((17:ℕ):ℝ))
                        (by norm_num : (18:ℝ) ^ 17 ≤ (2.672:ℝ) ^ 50))
                  have hPb : ((1.487:ℝ))⁻¹ ≤ P := by
                    rw [hPdef]
                    exact P14_ge_of_le hS0 hr7
                      (rpow_le_of_pow_cert (by norm_num) (by norm_num) (by norm_num)
                        (by norm_num : (0.14:ℝ) * ((50:ℕ):ℝ) = ((7:ℕ):ℝ))
                        (by norm_num : (17:ℝ) ^ 7 ≤ (1.487:ℝ) ^ 50))
                  exact leaf_bound_const hG0 hG1 hBE hBb hPb hr6 hS0 (by norm_num)
                    (by norm_num) (by norm_num)
                · rcases le_total S 26 with hr8 | hr8
                  · -- S ∈ [17, 26]
                    have hBb : B ≤ (3.067:ℝ) - 1 := by
                      rw [hBdef]
                      exact B34_le_of_le hS0.le (by linarith : S + 1 ≤ (27:ℝ)) (by norm_num)
                        (rpow_le_of_pow_cert (by norm_num) (by norm_num) (by norm_num)
                          (by norm_num : (0.34:ℝ) * ((50:ℕ):ℝ) = ((17:ℕ):ℝ))
                          (by norm_num : (27:ℝ) ^ 17 ≤ (3.067:ℝ) ^ 50))
                    have hPb : ((1.578:ℝ))⁻¹ ≤ P := by
                      rw [hPdef]
                      exact P14_ge_of_le hS0 hr8
                        (rpow_le_of_pow_cert (by norm_num) (by norm_num) (by norm_num)
                          (by norm_num : (0.14:ℝ) * ((50:ℕ):ℝ) = ((7:ℕ):ℝ))
                          (by norm_num : (26:ℝ) ^ 7 ≤ (1.578:ℝ) ^ 50))
                    exact leaf_bound_const hG0 hG1 hBE hBb hPb hr7 hS0 (by norm_num)
                      (by norm_num) (by norm_num)
                  · rcases le_total S 40 with hr9 | hr9
                    · -- S ∈ [26, 40]
                      have hBb : B ≤ (3.535:ℝ) - 1 := by
                        rw [hBdef]
                        exact B34_le_of_le hS0.le (by linarith : S + 1 ≤ (41:ℝ))
                          (by norm_num)
                          (rpow_le_of_pow_cert (by norm_num) (by norm_num) (by norm_num)
                            (by norm_num : (0.34:ℝ) * ((50:ℕ):ℝ) = ((17:ℕ):ℝ))
                            (by norm_num : (41:ℝ) ^ 17 ≤ (3.535:ℝ) ^ 50))
                      have hPb : ((1.6765:ℝ))⁻¹ ≤ P := by
                        rw [hPdef]
                        exact P14_ge_of_le hS0 hr9
                          (rpow_le_of_pow_cert (by norm_num) (by norm_num) (by norm_num)
                            (by norm_num : (0.14:ℝ) * ((50:ℕ):ℝ) = ((7:ℕ):ℝ))
                            (by norm_num : (40:ℝ) ^ 7 ≤ (1.6765:ℝ) ^ 50))
                      exact leaf_bound_const hG0 hG1 hBE hBb hPb hr8 hS0 (by norm_num)
                        (by norm_num) (by norm_num)
                    · -- S ∈ [40, 36500]: here already 2.18·B·E ≤ S
                      have hS34n : (0:ℝ) ≤ S ^ ((0.34:ℝ)) :=
                        Real.rpow_nonneg hS0.le _
                      have hBb : B ≤ 1.009 * S ^ ((0.34:ℝ)) := by
                        rw [hBdef]
                        exact B34_tail hS0 hr9
                      exact leaf_bound_tail hS34n (S66_tail hr9) hBb hEup hE1
                        (Ssplit_34_66 hS0) hSPG
  clear_value Dp P B E G u
  clear hu hGdef hEdef hBdef hPdef hDpdef
  have hstep : 1.268 * (P * G) ≤ Real.exp 1.49 * (11 - D) * P * G * 0.29 := by
    have h11 : (1:ℝ) ≤ 11 - D := by linarith
    have h1 : (4.3734:ℝ) * 1 ≤ Real.exp 1.49 * (11 - D) :=
      mul_le_mul exp149_ge h11 zero_le_one (Real.exp_pos _).le
    have hPG : 0 ≤ P * G := mul_nonneg hP0.le hG0
    calc 1.268 * (P * G) ≤ Real.exp 1.49 * (11 - D) * 0.29 * (P * G) := by
          refine mul_le_mul_of_nonneg_right ?_ hPG
          nlinarith [h1]
      _ = Real.exp 1.49 * (11 - D) * P * G * 0.29 := by ring
  have hRHS : S + 1.268 * (S * (P * G)) ≤
      S * (1 + Real.exp 1.49 * (11 - D) * P * G * 0.29) := by
    have h2 := mul_le_mul_of_nonneg_left hstep hS0.le
    nlinarith [h2]
  have hL1 : 2.18 * Dp * B * E ≤ 2.18 * (B * E) := by
    have hBE0 : 0 ≤ B * E := mul_nonneg hB0 (by linarith)
    nlinarith [mul_nonneg (sub_nonneg.2 hDp1) hBE0]
  have hFmax : 2.18 * Dp * B * E ≤ 36500 := by
    have hBE0 : 0 ≤ B * E := mul_nonneg hB0 (by linarith)
    have hbe : B * E ≤ 35 * 3.5338 := mul_le_mul hBmax hEup (by linarith) (by norm_num)
    nlinarith [mul_nonneg (sub_nonneg.2 hDp1) hBE0, hbe]
  refine max_le (le_min (by norm_num) ?_) (le_min hFmax ?_)
  · linarith [hRHS, hSPG]
  · exact le_trans hL1 (le_trans hcore hRHS)

/-- The forget-path stability is uncapped: at `D = 1`, `S = 10^15 − 1`
and retrievability 1 it exceeds the 36500-day maximum interval. -/
lemma forget_exceeds_cap :
    36500 < nextForgetStability 1 ((10:ℝ) ^ 15 - 1) 1 := by
  have h13 : w 13 = (0.34:ℝ) := by norm_num [w]
  have hT : (100000:ℝ) ≤ ((10:ℝ) ^ (15:ℕ)) ^ (w 13) := by
    have h0 : ((10:ℝ) ^ (15:ℕ)) ^ ((0.34:ℝ)) = (10:ℝ) ^ ((15:ℝ) * 0.34) := by
      rw [← Real.rpow_natCast (10:ℝ) 15, ← Real.rpow_mul (by norm_num : (0:ℝ) ≤ 10)]
      norm_num
    rw [h13, h0]
    have h5 : (100000:ℝ) = (10:ℝ) ^ ((5:ℕ):ℝ) := by
      rw [Real.rpow_natCast]
      norm_num
    rw [h5]
    exact Real.rpow_le_rpow_of_exponent_le (by norm_num) (by norm_num)
  unfold nextForgetStability
  refine lt_of_lt_of_le ?_ (le_max_right _ _)
  have hbase : ((10:ℝ) ^ 15 - 1 + 1) = (10:ℝ) ^ 15 := by ring
  have hexp : Real.exp (w 14 * (1 - 1)) = 1 := by simp
  have hw11 : w 11 = (2.18:ℝ) := by norm_num [w]
  rw [hbase, Real.one_rpow, hexp, hw11]
  set T := ((10:ℝ) ^ (15:ℕ)) ^ (w 13) with hTd
  linarith [hT]

/-- Claim C1 (amended): for all valid inputs (`D ∈ [1,10]`, `S ≥ 0.1`,
`elapsed ≥ 0`, `grade ∈ {1..4}`), the recall-path stability lies in
`[0.1, 36500]`, and the forget-path stability is `≥ 0.1`.  (The original
upper bound 36500 on the forget path does not hold: that path is not
capped — see the counterexample.) -/
theorem C1_stability_bounds (D S elapsed : ℝ) (grade : ℕ)
    (hD1 : 1 ≤ D) (hD2 : D ≤ 10) (hS : 0.1 ≤ S) (he : 0 ≤ elapsed)
    (hgrade : 1 ≤ grade ∧ grade ≤ 4) :
    ((0.1:ℝ) ≤ nextRecallStability D S (retrievability S elapsed) grade ∧
      nextRecallStability D S (retrievability S elapsed) grade ≤ 36500) ∧
    (0.1:ℝ) ≤ nextForgetStability D S (retrievability S elapsed) := by
  have hS0 : (0:ℝ) < S := by linarith
  have hR1 : retrievability S elapsed ≤ 1 := retrievability_le_one hS0 he
  refine ⟨⟨?_, ?_⟩, le_max_left _ _⟩
  · unfold nextRecallStability
    refine le_min (by norm_num [maximum_interval]) ?_
    have hcore := recall_core_nonneg hD2 hS0.le hR1
    have hpen := hardPenalty_nonneg grade
    have hbon := easyBonus_nonneg grade
    have hprod : 0 ≤ Real.exp (w 8) * (11 - D) * S ^ (-(w 9)) *
        (Real.exp (w 10 * (1 - retrievability S elapsed)) - 1) *
        (if grade = 2 then w 15 else 1) * (if grade = 4 then w 16 else 1) :=
      mul_nonneg (mul_nonneg hcore hpen) hbon
    nlinarith [mul_nonneg hS0.le hprod]
  · unfold nextRecallStability
    exact le_trans (min_le_left _ _) (by norm_num [maximum_interval])

/-- Witness for C1 at a concrete valid input. -/
theorem C1_stability_bounds_witness :
    ((0.1:ℝ) ≤ nextRecallStability 1 1 (retrievability 1 0) 3 ∧
      nextRecallStability 1 1 (retrievability 1 0) 3 ≤ 36500) ∧
    (0.1:ℝ) ≤ nextForgetStability 1 1 (retrievability 1 0) :=
  C1_stability_bounds 1 1 0 3 (by norm_num) (by norm_num) (by norm_num) (by norm_num)
    ⟨by norm_num, by norm_num⟩

/-- Claim C1 (counterexample): at the valid input `D = 1`,
`S = 10^15 − 1`, `elapsed = 0` the forget-path output exceeds 36500, so
the claimed upper bound fails for `nextStabilityOnForget`. -/
theorem C1_counterexample :
    (1:ℝ) ≤ 1 ∧ (1:ℝ) ≤ 10 ∧ (0.1:ℝ) ≤ (10:ℝ) ^ 15 - 1 ∧ (0:ℝ) ≤ 0 ∧
    36500 < nextForgetStability 1 ((10:ℝ) ^ 15 - 1)
      (retrievability ((10:ℝ) ^ 15 - 1) 0) := by
  refine ⟨le_refl 1, by norm_num, by norm_num, le_refl 0, ?_⟩
  rw [retrievability_zero]
  exact forget_exceeds_cap

/-- Claim C7 (amended): holding `D`, `S`, `elapsed` fixed, the
recall-path stability is non-decreasing in the grade
(hard ≤ good ≤ easy); and when additionally `S ≤ 36500`, every
recall-path output is `≥` the forget-path output from the same `D`, `S`,
`R`.  (Without the `S ≤ 36500` hypothesis the comparison with the forget
path fails, because only the recall path is capped — see the
counterexample.) -/
theorem C7_monotonicity (D S elapsed : ℝ)
    (hD1 : 1 ≤ D) (hD2 : D ≤ 10) (hS : 0.1 ≤ S) (he : 0 ≤ elapsed) :
    (nextRecallStability D S (retrievability S elapsed) 2 ≤
        nextRecallStability D S (retrievability S elapsed) 3 ∧
      nextRecallStability D S (retrievability S elapsed) 3 ≤
        nextRecallStability D S (retrievability S elapsed) 4) ∧
    (S ≤ 36500 →
      nextForgetStability D S (retrievability S elapsed) ≤
          nextRecallStability D S (retrievability S elapsed) 2 ∧
        nextForgetStability D S (retrievability S elapsed) ≤
          nextRecallStability D S (retrievability S elapsed) 3 ∧
        nextForgetStability D S (retrievability S elapsed) ≤
          nextRecallStability D S (retrievability S elapsed) 4) := by
  have hS0 : (0:ℝ) < S := by linarith
  have hR1 : retrievability S elapsed ≤ 1 := retrievability_le_one hS0 he
  have hR0 : 0 ≤ retrievability S elapsed := retrievability_nonneg hS0 he
  have hcore := recall_core_nonneg hD2 hS0.le hR1
  have hw15 : w 15 = (0.29:ℝ) := by norm_num [w]
  have hw16 : w 16 = (2.61:ℝ) := by norm_num [w]
  have hm23 : nextRecallStability D S (retrievability S elapsed) 2 ≤
      nextRecallStability D S (retrievability S elapsed) 3 := by
    unfold nextRecallStability
    refine min_le_min (le_refl _) ?_
    norm_num [hw15]
    nlinarith [mul_nonneg hS0.le hcore]
  have hm34 : nextRecallStability D S (retrievability S elapsed) 3 ≤
      nextRecallStability D S (retrievability S elapsed) 4 := by
    unfold nextRecallStability
    refine min_le_min (le_refl _) ?_
    norm_num [hw16]
    nlinarith [mul_nonneg hS0.le hcore]
  refine ⟨⟨hm23, hm34⟩, fun hcap => ?_⟩
  have h2 := forget_le_recall_hard hD1 hD2 hS hcap hR0 hR1
  exact ⟨h2, h2.trans hm23, (h2.trans hm23).trans hm34⟩

/-- Witness for C7 at a concrete input (`D = 1`, `S = 1`, `elapsed = 0`). -/
theorem C7_monotonicity_witness :
    (nextRecallStability 1 1 (retrievability 1 0) 2 ≤
        nextRecallStability 1 1 (retrievability 1 0) 3 ∧
      nextRecallStability 1 1 (retrievability 1 0) 3 ≤
        nextRecallStability 1 1 (retrievability 1 0) 4) ∧
    (nextForgetStability 1 1 (retrievability 1 0) ≤
        nextRecallStability 1 1 (retrievability 1 0) 2 ∧
      nextForgetStability 1 1 (retrievability 1 0) ≤
        nextRecallStability 1 1 (retrievability 1 0) 3 ∧
      nextForgetStability 1 1 (retrievability 1 0) ≤
        nextRecallStability 1 1 (retrievability 1 0) 4) :=
  ⟨(C7_monotonicity 1 1 0 (by norm_num) (by norm_num) (by norm_num) (by norm_num)).1,
    (C7_monotonicity 1 1 0 (by norm_num) (by norm_num) (by norm_num) (by norm_num)).2
      (by norm_num)⟩

/-- Claim C7 (counterexample): at the valid input `D = 1`,
`S = 10^15 − 1`, `elapsed = 0`, the recall-path output (capped at 36500)
is strictly below the forget-path output (uncapped), refuting
"all recall outputs ≥ forget-path stability". -/
theorem C7_counterexample :
    nextRecallStability 1 ((10:ℝ) ^ 15 - 1) (retrievability ((10:ℝ) ^ 15 - 1) 0) 2 <
      nextForgetStability 1 ((10:ℝ) ^ 15 - 1) (retrievability ((10:ℝ) ^ 15 - 1) 0) ∧
    (1:ℝ) ≤ 1 ∧ (1:ℝ) ≤ 10 ∧ (0.1:ℝ) ≤ (10:ℝ) ^ 15 - 1 ∧ (0:ℝ) ≤ 0 := by
  refine ⟨?_, le_refl 1, by norm_num, by norm_num, le_refl 0⟩
  rw [retrievability_zero, recall_R1_inner]
  have hmin : min maximum_interval ((10:ℝ) ^ 15 - 1) = (36500:ℝ) := by
    rw [min_eq_left (by unfold maximum_interval; norm_num)]
    rfl
  rw [hmin]
  exact forget_exceeds_cap

/-- Claim C8: rating a brand-new card (`state = new`, stability 0,
difficulty 0, never reviewed) `good` yields, under the default weights,
state `review`, stored stability 2.4, stored difficulty 4.93, due
`now + 2` days, and `lastReview = now`. -/
theorem C8_new_card_good (now : ℝ) :
    (fsrsReview ⟨SrsState.new, 0, 0, none⟩ Rating.good now).srsState = SrsState.review ∧
    (fsrsReview ⟨SrsState.new, 0, 0, none⟩ Rating.good now).srsStability = 2.4 ∧
    (fsrsReview ⟨SrsState.new, 0, 0, none⟩ Rating.good now).srsDifficulty = 4.93 ∧
    (fsrsReview ⟨SrsState.new, 0, 0, none⟩ Rating.good now).srsDue = now + 2 ∧
    (fsrsReview ⟨SrsState.new, 0, 0, none⟩ Rating.good now).srsLastReview = now := by
  have hS : initStability (gradeOf Rating.good) = (2.4:ℝ) := by
    unfold initStability gradeOf
    norm_num [w]
  have hD : initDifficulty (gradeOf Rating.good) = (4.93:ℝ) := by
    unfold initDifficulty gradeOf
    norm_num [w]
  refine ⟨rfl, ?_, ?_, ?_, rfl⟩
  · show round2 (initStability (gradeOf Rating.good)) = 2.4
    rw [hS]
    unfold round2
    rw [show (2.4:ℝ) * 100 + 1 / 2 = 240.5 by norm_num]
    rw [show ⌊(240.5:ℝ)⌋ = (240:ℤ) by rw [Int.floor_eq_iff] <;> norm_num]
    norm_num
  · show round2 (initDifficulty (gradeOf Rating.good)) = 4.93
    rw [hD]
    unfold round2
    rw [show (4.93:ℝ) * 100 + 1 / 2 = 493.5 by norm_num]
    rw [show ⌊(493.5:ℝ)⌋ = (493:ℤ) by rw [Int.floor_eq_iff] <;> norm_num]
    norm_num
  · show nextInterval (initStability (gradeOf Rating.good)) now
      ((if Rating.good == Rating.again then SrsState.learning else SrsState.review) ==
        SrsState.learning) = now + 2
    rw [hS]
    show nextInterval 2.4 now false = now + 2
    simp only [nextInterval, request_retention]
    rw [if_neg Bool.false_ne_true]
    unfold jsRound
    rw [show (2.4:ℝ) * (9 * (1 / 0.9 - 1)) + 1 / 2 = 2.9 by norm_num]
    rw [show ⌊(2.9:ℝ)⌋ = (2:ℤ) by rw [Int.floor_eq_iff] <;> norm_num]
    rw [show ((2:ℤ):ℝ) = (2:ℝ) by norm_num]
    rw [max_eq_right (by norm_num)]

/-- Claim C3 (amended): every rating application yields
`due = now + days` with `days` initially `S' · 9·(1/0.9 − 1)` (where `S'`
is the stability passed to `nextInterval`); the computation is short-term
exactly when the card was `new` and the resulting state is `learning`,
or the card was not `new` and the resulting state is `relearning`; in the
short-term case `days = max(0.0035, days)` (so `due ≥ now + 0.0035`),
otherwise `days = max(1, round(days))`, a whole number of days
(so `due ≥ now + 1`).  (The original claim's condition "resulting state
is learning or relearning" is wrong for a `hard` rating on a card in
state `learning`, which stays `learning` but is scheduled long-term —
see the counterexample.) -/
theorem C3_interval_characterization (card : SCard) (rating : Rating) (now : ℝ) :
    ((fsrsReview card rating now).srsDue =
      now + (if reviewShortTerm card.srsState rating
        then max 0.0035 (reviewStability card rating now * (9 * (1 / 0.9 - 1)))
        else max 1
          ((jsRound (reviewStability card rating now * (9 * (1 / 0.9 - 1))) : ℤ) : ℝ))) ∧
    (reviewShortTerm card.srsState rating = true ↔
      ((card.srsState = SrsState.new ∧
          (fsrsReview card rating now).srsState = SrsState.learning) ∨
        (card.srsState ≠ SrsState.new ∧
          (fsrsReview card rating now).srsState = SrsState.relearning))) ∧
    (reviewShortTerm card.srsState rating = true →
      now + 0.0035 ≤ (fsrsReview card rating now).srsDue) ∧
    (reviewShortTerm card.srsState rating = false →
      now + 1 ≤ (fsrsReview card rating now).srsDue ∧
      ∃ k : ℤ, (fsrsReview card rating now).srsDue = now + (k : ℝ)) := by
  refine ⟨?_, ?_, ?_, ?_⟩
  · rw [fsrsReview_srsDue]
    rfl
  · rw [fsrsReview_srsState]
    obtain ⟨s, st, d, lr⟩ := card
    cases s <;> cases rating <;> simp [reviewShortTerm, nextStateSpec]
  · intro h
    rw [fsrsReview_srsDue]
    simp only [nextInterval, request_retention]
    rw [if_pos h]
    exact add_le_add_left (le_max_left _ _) now
  · intro h
    rw [fsrsReview_srsDue]
    simp only [nextInterval, request_retention]
    rw [h, if_neg Bool.false_ne_true]
    refine ⟨add_le_add_left (le_max_left _ _) now, ?_⟩
    refine ⟨max 1 (jsRound (reviewStability card rating now * (9 * (1 / 0.9 - 1)))), ?_⟩
    push_cast
    rfl

/-- Witness for C3 at a concrete input (a `review` card rated `again`,
a short-term transition). -/
theorem C3_interval_characterization_witness :
    (0:ℝ) + 0.0035 ≤ (fsrsReview ⟨SrsState.review, 1, 5, some 0⟩ Rating.again 0).srsDue :=
  (C3_interval_characterization ⟨SrsState.review, 1, 5, some 0⟩ Rating.again 0).2.2.1 rfl

/-- Claim C3 (counterexample): a card in state `learning` rated `hard`
keeps the resulting state `learning`, yet its interval is computed
long-term: with stability 0.5 the due date is `now + 1`, not the
`now + max(0.0035, 0.5)` the claimed short-term condition would give. -/
theorem C3_counterexample :
    (fsrsReview ⟨SrsState.learning, 0.5, 5, some 0⟩ Rating.hard 0).srsState =
      SrsState.learning ∧
    (fsrsReview ⟨SrsState.learning, 0.5, 5, some 0⟩ Rating.hard 0).srsDue = 0 + 1 ∧
    (0:ℝ) + max 0.0035 (reviewStability ⟨SrsState.learning, 0.5, 5, some 0⟩ Rating.hard 0 *
      (9 * (1 / 0.9 - 1))) = 0 + 0.5 ∧
    (0:ℝ) + 1 ≠ 0 + 0.5 := by
  have hrs : reviewStability ⟨SrsState.learning, 0.5, 5, some 0⟩ Rating.hard 0 = 0.5 := by
    show nextRecallStability 5 0.5
      (retrievability 0.5 (max 0 (0 - Option.getD (some 0) 0))) (gradeOf Rating.hard) = 0.5
    rw [show max 0 ((0:ℝ) - Option.getD (some 0) 0) = 0 by norm_num]
    rw [retrievability_zero]
    show nextRecallStability 5 0.5 1 2 = 0.5
    rw [recall_R1_inner]
    exact min_eq_right (by unfold maximum_interval; norm_num)
  refine ⟨rfl, ?_, ?_, by norm_num⟩
  · rw [fsrsReview_srsDue, hrs]
    show nextInterval 0.5 0 false = 0 + 1
    simp only [nextInterval, request_retention]
    rw [if_neg Bool.false_ne_true]
    unfold jsRound
    rw [show (0.5:ℝ) * (9 * (1 / 0.9 - 1)) + 1 / 2 = 1 by norm_num]
    rw [Int.floor_one]
    norm_num
  · rw [hrs]
    rw [show (0.5:ℝ) * (9 * (1 / 0.9 - 1)) = 0.5 by norm_num]
    rw [max_eq_right (by norm_num)]

end Yakoo
